import Mathlib

/-!
Verification development for the `quilt` package core
(`src/compiler/quilt/tools/package.py`).

The Python module is embedded shallowly:

* node names, hashes and message strings are `List Char` (called `Name`),
  so that the character-level operations of the source
  (`lstrip('/')`, `replace('/', '.')`, `split('.')`, `split('/')`)
  are ordinary list functions;
* a Python `dict` is an insertion-ordered association list (`Children`);
  `d[k] = v` replaces in place or appends, `d.setdefault(k, v)` inserts
  only when the key is absent, exactly as in CPython;
* raised exceptions become explicit error values (`PyErr`), whose
  constructor records the Python exception class;
* the modules imported by `package.py` but not part of this repository
  (`core.py`: node classes, `encode_node` / `decode_node` /
  `hash_contents` / `find_object_hashes`; `util.is_nodename`;
  the object store) are modelled from the spec, and each such
  definition says so in its doc comment.
-/

namespace Quilt

/-- A Python string, represented as its list of characters. -/
abbrev Name := List Char

instance {ε α : Type} [DecidableEq ε] [DecidableEq α] : DecidableEq (Except ε α) :=
  fun x y =>
    match x, y with
    | Except.ok a, Except.ok b =>
      if h : a = b then isTrue (by rw [h]) else isFalse (fun hc => h (Except.ok.inj hc))
    | Except.error a, Except.error b =>
      if h : a = b then isTrue (by rw [h]) else isFalse (fun hc => h (Except.error.inj hc))
    | Except.ok _, Except.error _ => isFalse (fun hc => Except.noConfusion hc)
    | Except.error _, Except.ok _ => isFalse (fun hc => Except.noConfusion hc)

/-- The metadata dict built by `_add_to_contents`:
`dict(q_ext=ext, q_path=path, q_target=target)`. -/
structure Meta where
  q_ext : Name
  q_path : Option Name
  q_target : Name
deriving DecidableEq, Repr

mutual
/-- Modelled from the spec: the node classes `GroupNode`, `TableNode`,
`FileNode` live in `core.py`, which is not part of this repository.
Per the spec (§3), a `GroupNode` holds a mapping name → node, a
`TableNode` holds an ordered hash list, a format tag and metadata, and a
`FileNode` holds a hash list and metadata. -/
inductive Node where
| group (children : Children)
| table (hashes : List Name) (format : Name) (metadata : Meta)
| file (hashes : List Name) (metadata : Meta)
deriving DecidableEq, Repr

/-- A Python `dict` mapping names to nodes: an insertion-ordered
association list. -/
inductive Children where
| nil
| cons (key : Name) (value : Node) (rest : Children)
deriving DecidableEq, Repr
end

namespace Children

/-- Lookup `d[k]`: first entry with the given key. -/
def cget : Children → Name → Option Node
| nil, _ => none
| cons k v r, key => if k = key then some v else cget r key

/-- Assignment `d[k] = v`: replace the value at `k` in place, or append
a new entry when `k` is absent (CPython dict assignment). -/
def cinsert : Children → Name → Node → Children
| nil, key, nv => cons key nv nil
| cons k v r, key, nv => if k = key then cons k nv r else cons k v (cinsert r key nv)

/-- The effect of `d.setdefault(k, dflt)` on the dict: insert `dflt` at
the end when `k` is absent, otherwise leave the dict unchanged. -/
def csetdefault : Children → Name → Node → Children
| nil, key, dflt => cons key dflt nil
| cons k v r, key, dflt => if k = key then cons k v r else cons k v (csetdefault r key dflt)

/-- Python truthiness of a dict: non-empty. -/
def isNonEmpty : Children → Bool
| nil => false
| cons _ _ _ => true

end Children

/-- Lexicographic `≤` on names by character code: the order in which
`json.dump(..., sort_keys=True)` emits dict keys. -/
def lexLe : Name → Name → Bool
| [], _ => true
| _ :: _, [] => false
| a :: as, b :: bs =>
  if a.toNat < b.toNat then true
  else if b.toNat < a.toNat then false
  else lexLe as bs

theorem lexLe_total : ∀ a b : Name, lexLe a b = true ∨ lexLe b a = true := by
  intro a
  induction a with
  | nil => intro b; left; rfl
  | cons x xs ih =>
    intro b
    cases b with
    | nil => right; rfl
    | cons y ys =>
      by_cases hxy : x.toNat < y.toNat
      · left; simp [lexLe, hxy]
      · by_cases hyx : y.toNat < x.toNat
        · right; simp [lexLe, hyx]
        · rcases ih ys with h | h
          · left; simp [lexLe, hxy, hyx, h]
          · right; simp [lexLe, hxy, hyx, h]

namespace Children

/-- Insert an entry into a key-sorted dict, keeping it sorted. -/
def sortInsert (key : Name) (v : Node) : Children → Children
| nil => cons key v nil
| cons k2 v2 r =>
  if lexLe key k2 then cons key v (cons k2 v2 r)
  else cons k2 v2 (sortInsert key v r)

/-- Insertion sort of a dict by key: the key order produced by
`sort_keys=True`. -/
def csort : Children → Children
| nil => nil
| cons k v r => sortInsert k v (csort r)

/-- The dict is sorted by key (adjacent entries in `lexLe` order). -/
def csorted : Children → Bool
| nil => true
| cons _ _ nil => true
| cons k _ (cons k2 v2 r) => lexLe k k2 && csorted (cons k2 v2 r)

theorem csorted_sortInsert (key : Name) (v : Node) :
    ∀ cs : Children, csorted cs = true → csorted (sortInsert key v cs) = true
| .nil, _ => rfl
| .cons k2 v2 r, hs => by
  by_cases h : lexLe key k2 = true
  · simp [sortInsert, h, csorted, hs]
  · have h2 : lexLe k2 key = true := by
      rcases lexLe_total key k2 with hh | hh
      · exact absurd hh h
      · exact hh
    cases r with
    | nil => simp [sortInsert, h, csorted, h2]
    | cons k3 v3 r3 =>
      have hs2 : csorted (Children.cons k3 v3 r3) = true := by
        simp [csorted] at hs
        exact hs.2
      have hk23 : lexLe k2 k3 = true := by
        simp [csorted] at hs
        exact hs.1
      have ihr := csorted_sortInsert key v (Children.cons k3 v3 r3) hs2
      by_cases h3 : lexLe key k3 = true
      · simp [sortInsert, h, h3, csorted, h2, hk23] at ihr ⊢
        exact ihr
      · simp [sortInsert, h, h3, csorted, h2, hk23] at ihr ⊢
        exact ihr

theorem csorted_csort : ∀ cs : Children, csorted (csort cs) = true
| .nil => rfl
| .cons k v r => csorted_sortInsert k v _ (csorted_csort r)

theorem csort_of_sorted : ∀ cs : Children, csorted cs = true → csort cs = cs
| .nil, _ => rfl
| .cons k v r, hs => by
  cases r with
  | nil => rfl
  | cons k2 v2 r2 =>
    have hk : lexLe k k2 = true := by
      simp [csorted] at hs; exact hs.1
    have hr : csorted (Children.cons k2 v2 r2) = true := by
      simp [csorted] at hs; exact hs.2
    have ihr := csort_of_sorted (Children.cons k2 v2 r2) hr
    simp [csort] at ihr ⊢
    rw [ihr]
    simp [sortInsert, hk]

theorem csort_idem (cs : Children) : csort (csort cs) = csort cs :=
  csort_of_sorted _ (csorted_csort cs)

end Children

mutual
/-- The canonical form of a tree: every group's children sorted by key,
recursively.  Two trees are structurally and data-identical exactly when
their canonical forms are equal; this is the tree a canonical
serialization (sorted keys at every level) represents. -/
def canon : Node → Node
| .group ch => .group (canonChildren ch).csort
| .table h f m => .table h f m
| .file h m => .file h m

/-- Canonicalization applied to every value of a dict. -/
def canonChildren : Children → Children
| .nil => .nil
| .cons k v r => .cons k (canon v) (canonChildren r)
end

/-- Structural/data identity of two trees, independent of the insertion
order of any group's children. -/
def treeEquiv (t1 t2 : Node) : Prop := canon t1 = canon t2

instance (t1 t2 : Node) : Decidable (treeEquiv t1 t2) := by
  unfold treeEquiv; infer_instance

mutual
/-- A JSON document, as handled by `json.dump` / `json.load`. -/
inductive Json where
| str (s : Name)
| null
| arr (elems : JArr)
| obj (fields : JFields)
deriving DecidableEq, Repr

/-- The fields of a JSON object, in emission order. -/
inductive JFields where
| nil
| cons (key : Name) (value : Json) (rest : JFields)
deriving DecidableEq, Repr

/-- The elements of a JSON array. -/
inductive JArr where
| nil
| cons (value : Json) (rest : JArr)
deriving DecidableEq, Repr
end

namespace JFields

/-- Insert a field into a key-sorted object, keeping it sorted. -/
def fsortInsert (key : Name) (v : Json) : JFields → JFields
| nil => cons key v nil
| cons k2 v2 r =>
  if lexLe key k2 then cons key v (cons k2 v2 r)
  else cons k2 v2 (fsortInsert key v r)

/-- Insertion sort of object fields by key: the effect of
`sort_keys=True` on one object. -/
def fsort : JFields → JFields
| nil => nil
| cons k v r => fsortInsert k v (fsort r)

/-- The fields are sorted by key. -/
def fsorted : JFields → Bool
| nil => true
| cons _ _ nil => true
| cons k _ (cons k2 v2 r) => lexLe k k2 && fsorted (cons k2 v2 r)

theorem fsorted_fsortInsert (key : Name) (v : Json) :
    ∀ fs : JFields, fsorted fs = true → fsorted (fsortInsert key v fs) = true
| .nil, _ => rfl
| .cons k2 v2 r, hs => by
  by_cases h : lexLe key k2 = true
  · simp [fsortInsert, h, fsorted, hs]
  · have h2 : lexLe k2 key = true := by
      rcases lexLe_total key k2 with hh | hh
      · exact absurd hh h
      · exact hh
    cases r with
    | nil => simp [fsortInsert, h, fsorted, h2]
    | cons k3 v3 r3 =>
      have hs2 : fsorted (JFields.cons k3 v3 r3) = true := by
        simp [fsorted] at hs
        exact hs.2
      have hk23 : lexLe k2 k3 = true := by
        simp [fsorted] at hs
        exact hs.1
      have ihr := fsorted_fsortInsert key v (JFields.cons k3 v3 r3) hs2
      by_cases h3 : lexLe key k3 = true
      · simp [fsortInsert, h, h3, fsorted, h2, hk23] at ihr ⊢
        exact ihr
      · simp [fsortInsert, h, h3, fsorted, h2, hk23] at ihr ⊢
        exact ihr

theorem fsorted_fsort : ∀ fs : JFields, fsorted (fsort fs) = true
| .nil => rfl
| .cons k v r => fsorted_fsortInsert k v _ (fsorted_fsort r)

theorem fsort_of_sorted : ∀ fs : JFields, fsorted fs = true → fsort fs = fs
| .nil, _ => rfl
| .cons k v r, hs => by
  cases r with
  | nil => rfl
  | cons k2 v2 r2 =>
    have hk : lexLe k k2 = true := by
      simp [fsorted] at hs; exact hs.1
    have hr : fsorted (JFields.cons k2 v2 r2) = true := by
      simp [fsorted] at hs; exact hs.2
    have ihr := fsort_of_sorted (JFields.cons k2 v2 r2) hr
    simp [fsort] at ihr ⊢
    rw [ihr]
    simp [fsortInsert, hk]

theorem fsort_idem (fs : JFields) : fsort (fsort fs) = fsort fs :=
  fsort_of_sorted _ (fsorted_fsort fs)

end JFields

/-- Encoding of an optional string metadata value (`None` → `null`). -/
def encodeOptName : Option Name → Json
| none => Json.null
| some s => Json.str s

/-- Modelled from the spec: `encode_node` lives in `core.py`, which is
not part of this repository.  Per the spec (§6), a node's metadata is a
map of opaque key/value entries; the entries built by
`_add_to_contents` are `q_ext`, `q_path`, `q_target`, listed here in
the sorted key order that `sort_keys=True` emits. -/
def encodeMeta (m : Meta) : Json :=
  Json.obj (JFields.cons ("q_ext").toList (Json.str m.q_ext)
    (JFields.cons ("q_path").toList (encodeOptName m.q_path)
      (JFields.cons ("q_target").toList (Json.str m.q_target) JFields.nil)))

/-- A hash list as a JSON array of strings. -/
def encodeHashes : List Name → JArr
| [] => JArr.nil
| h :: r => JArr.cons (Json.str h) (encodeHashes r)

mutual
/-- Modelled from the spec: `encode_node` lives in `core.py`, which is
not part of this repository.  Per the spec (§6), each node is encoded
as an object carrying an explicit type discriminator plus its
variant-specific fields (children map / hash list + format + metadata /
hash list + metadata), with canonical (sorted) field ordering.  This
definition produces the document as `json.dump(..., sort_keys=True)`
writes it, so every object's keys, including the children map's, are
sorted. -/
def encodeNode : Node → Json
| .group ch =>
  Json.obj (JFields.cons ("children").toList (Json.obj (JFields.fsort (encodeChildren ch)))
    (JFields.cons ("type").toList (Json.str ("GROUP").toList) JFields.nil))
| .table h f m =>
  Json.obj (JFields.cons ("format").toList (Json.str f)
    (JFields.cons ("hashes").toList (Json.arr (encodeHashes h))
      (JFields.cons ("metadata").toList (encodeMeta m)
        (JFields.cons ("type").toList (Json.str ("TABLE").toList) JFields.nil))))
| .file h m =>
  Json.obj (JFields.cons ("hashes").toList (Json.arr (encodeHashes h))
    (JFields.cons ("metadata").toList (encodeMeta m)
      (JFields.cons ("type").toList (Json.str ("FILE").toList) JFields.nil)))

/-- Encoding of a children dict as object fields (keys not yet
sorted; the serializer sorts them). -/
def encodeChildren : Children → JFields
| .nil => JFields.nil
| .cons k v r => JFields.cons k (encodeNode v) (encodeChildren r)
end

/-- Decoding of an optional string metadata value. -/
def decodeOptName : Json → Option (Option Name)
| Json.null => some none
| Json.str s => some (some s)
| _ => none

/-- Modelled from the spec: the inverse of `encodeMeta`. -/
def decodeMeta : Json → Option Meta
| Json.obj (JFields.cons k1 (Json.str e)
    (JFields.cons k2 p (JFields.cons k3 (Json.str t) JFields.nil))) =>
  if k1 = ("q_ext").toList ∧ k2 = ("q_path").toList ∧ k3 = ("q_target").toList then
    match decodeOptName p with
    | some po => some ⟨e, po, t⟩
    | none => none
  else none
| _ => none

/-- Decoding of a JSON array of hash strings. -/
def decodeHashes : JArr → Option (List Name)
| JArr.nil => some []
| JArr.cons (Json.str h) r =>
  match decodeHashes r with
  | some hs => some (h :: hs)
  | none => none
| JArr.cons _ _ => none

mutual
/-- Modelled from the spec: `decode_node` lives in `core.py`, which is
not part of this repository.  Per the spec (§6), the decoder reads the
explicit type discriminator and reconstructs the matching variant from
the variant-specific fields; a document not of that shape is not a
well-formed serialized tree. -/
def decodeNode : Json → Option Node
| Json.obj (JFields.cons k1 (Json.obj fs)
    (JFields.cons k2 (Json.str ty) JFields.nil)) =>
  if k1 = ("children").toList ∧ k2 = ("type").toList ∧ ty = ("GROUP").toList then
    match decodeFields fs with
    | some cs => some (Node.group cs)
    | none => none
  else none
| Json.obj (JFields.cons k1 (Json.str f)
    (JFields.cons k2 (Json.arr hs)
      (JFields.cons k3 md (JFields.cons k4 (Json.str ty) JFields.nil)))) =>
  if k1 = ("format").toList ∧ k2 = ("hashes").toList ∧ k3 = ("metadata").toList ∧
      k4 = ("type").toList ∧ ty = ("TABLE").toList then
    match decodeHashes hs, decodeMeta md with
    | some hl, some m => some (Node.table hl f m)
    | _, _ => none
  else none
| Json.obj (JFields.cons k1 (Json.arr hs)
    (JFields.cons k2 md (JFields.cons k3 (Json.str ty) JFields.nil))) =>
  if k1 = ("hashes").toList ∧ k2 = ("metadata").toList ∧
      k3 = ("type").toList ∧ ty = ("FILE").toList then
    match decodeHashes hs, decodeMeta md with
    | some hl, some m => some (Node.file hl m)
    | _, _ => none
  else none
| _ => none

/-- Decoding of object fields back into a children dict, keeping the
field order of the document. -/
def decodeFields : JFields → Option Children
| JFields.nil => some Children.nil
| JFields.cons k v r =>
  match decodeNode v, decodeFields r with
  | some n, some cs => some (Children.cons k n cs)
  | _, _ => none
end

mutual
/-- A canonical textual rendering of a JSON document (each field as
`"key":value` followed by a separator; strings unescaped, which is
sound here because names and hashes contain no quote characters in any
claim). -/
def jsonString : Json → Name
| Json.str s => '"' :: s ++ ['"']
| Json.null => ("null").toList
| Json.arr es => '[' :: jsonStringArr es ++ [']']
| Json.obj fs => Char.ofNat 123 :: jsonStringFields fs ++ [Char.ofNat 125]

/-- Rendering of object fields. -/
def jsonStringFields : JFields → Name
| JFields.nil => []
| JFields.cons k v r => '"' :: k ++ '"' :: ':' :: jsonString v ++ ',' :: jsonStringFields r

/-- Rendering of array elements. -/
def jsonStringArr : JArr → Name
| JArr.nil => []
| JArr.cons v r => jsonString v ++ ',' :: jsonStringArr r
end

/-- Modelled from the spec: `hash_contents` lives in `core.py`, which
is not part of this repository.  Per the spec (§4.2), it is a digest
over a canonical byte serialization of the tree in which group children
are ordered by sorted key and node fields appear in a fixed order.  The
digest itself is modelled as that canonical serialization: any
deterministic digest function factors through it, which is what the
equality claims about hashes rely on. -/
def hash_contents (t : Node) : Name := jsonString (encodeNode t)

theorem encodeChildren_sortInsert (k : Name) (v : Node) :
    ∀ cs : Children,
      encodeChildren (Children.sortInsert k v cs)
        = JFields.fsortInsert k (encodeNode v) (encodeChildren cs)
| .nil => rfl
| .cons k2 v2 r => by
  by_cases h : lexLe k k2 = true
  · simp [Children.sortInsert, JFields.fsortInsert, h, encodeChildren]
  · simp [Children.sortInsert, JFields.fsortInsert, h, encodeChildren,
      encodeChildren_sortInsert k v r]

theorem encodeChildren_csort :
    ∀ cs : Children, encodeChildren cs.csort = JFields.fsort (encodeChildren cs)
| .nil => rfl
| .cons k v r => by
  simp [Children.csort, JFields.fsort, encodeChildren, encodeChildren_sortInsert,
    encodeChildren_csort r]

theorem canonChildren_sortInsert (k : Name) (v : Node) :
    ∀ cs : Children,
      canonChildren (Children.sortInsert k v cs)
        = Children.sortInsert k (canon v) (canonChildren cs)
| .nil => rfl
| .cons k2 v2 r => by
  by_cases h : lexLe k k2 = true
  · simp [Children.sortInsert, h, canonChildren]
  · simp [Children.sortInsert, h, canonChildren, canonChildren_sortInsert k v r]

theorem canonChildren_csort :
    ∀ cs : Children, canonChildren cs.csort = (canonChildren cs).csort
| .nil => rfl
| .cons k v r => by
  simp [Children.csort, canonChildren, canonChildren_sortInsert, canonChildren_csort r]

mutual
theorem encode_canon : ∀ t : Node, encodeNode (canon t) = encodeNode t
| .group ch => by
  simp [canon, encodeNode, encodeChildren_csort, JFields.fsort_idem,
    encodeChildren_canon ch]
| .table h f m => rfl
| .file h m => rfl

theorem encodeChildren_canon :
    ∀ cs : Children, encodeChildren (canonChildren cs) = encodeChildren cs
| .nil => rfl
| .cons k v r => by
  simp [canonChildren, encodeChildren, encode_canon v, encodeChildren_canon r]
end

mutual
theorem canon_idem : ∀ t : Node, canon (canon t) = canon t
| .group ch => by
  simp [canon, canonChildren_csort, Children.csort_idem, canonChildren_idem ch]
| .table h f m => rfl
| .file h m => rfl

theorem canonChildren_idem :
    ∀ cs : Children, canonChildren (canonChildren cs) = canonChildren cs
| .nil => rfl
| .cons k v r => by
  simp [canonChildren, canon_idem v, canonChildren_idem r]
end

theorem decodeMeta_encodeMeta (m : Meta) : decodeMeta (encodeMeta m) = some m := by
  cases m with
  | mk e p t => cases p <;> rfl

theorem decodeHashes_encodeHashes : ∀ hs : List Name, decodeHashes (encodeHashes hs) = some hs
| [] => rfl
| h :: r => by
  simp [encodeHashes, decodeHashes, decodeHashes_encodeHashes r]

theorem decodeFields_fsortInsert (k : Name) (v : Json) :
    ∀ fs : JFields,
      decodeFields (JFields.fsortInsert k v fs)
        = match decodeNode v, decodeFields fs with
          | some n, some cs => some (Children.sortInsert k n cs)
          | _, _ => none
| .nil => by
  cases hv : decodeNode v <;>
    simp [JFields.fsortInsert, decodeFields, hv, Children.sortInsert]
| .cons k2 v2 r => by
  by_cases h : lexLe k k2 = true
  · cases hv : decodeNode v <;>
      cases hv2 : decodeNode v2 <;>
      cases hr : decodeFields r <;>
      simp [JFields.fsortInsert, decodeFields, h, hv, hv2, hr, Children.sortInsert]
  · have ih := decodeFields_fsortInsert k v r
    cases hv : decodeNode v <;>
      cases hv2 : decodeNode v2 <;>
      cases hr : decodeFields r <;>
      simp [hv, hv2, hr] at ih <;>
      simp [JFields.fsortInsert, decodeFields, h, hv, hv2, hr, Children.sortInsert, ih]

theorem decodeFields_fsort :
    ∀ fs : JFields, decodeFields (JFields.fsort fs) = (decodeFields fs).map Children.csort
| .nil => rfl
| .cons k v r => by
  have ih := decodeFields_fsort r
  rw [JFields.fsort, decodeFields_fsortInsert, ih]
  cases hv : decodeNode v <;>
    cases hr : decodeFields r <;>
    simp [decodeFields, hv, hr, Children.csort]

mutual
theorem decode_encode : ∀ t : Node, decodeNode (encodeNode t) = some (canon t)
| .group ch => by
  rw [encodeNode, decodeNode]
  rw [if_pos ⟨rfl, rfl, rfl⟩]
  rw [decodeFields_fsort, decodeFields_encode ch]
  rfl
| .table h f m => by
  rw [encodeNode, decodeNode]
  rw [if_pos ⟨rfl, rfl, rfl, rfl, rfl⟩]
  rw [decodeHashes_encodeHashes, decodeMeta_encodeMeta]
  rfl
| .file h m => by
  rw [encodeNode, decodeNode]
  rw [if_pos ⟨rfl, rfl, rfl, rfl⟩]
  rw [decodeHashes_encodeHashes, decodeMeta_encodeMeta]
  rfl

theorem decodeFields_encode :
    ∀ cs : Children, decodeFields (encodeChildren cs) = some (canonChildren cs)
| .nil => rfl
| .cons k v r => by
  rw [encodeChildren, decodeFields, decode_encode v, decodeFields_encode r]
  rfl
end

/-- A raised Python exception, by exception class; `packageException`
and `typeError` carry the message built by the source, `keyError`
carries the two arguments `raise KeyError(traversed, part)` passes. -/
inductive PyErr where
| packageException (msg : Name)
| typeError (msg : Name)
| keyError (traversed : Name) (part : Name)
| attributeError
| assertionError
| valueError
| ioError
deriving DecidableEq, Repr

/-- The Python exception class of an error: the "error kind" a caller
can distinguish with `except <Class>`. -/
def errClass : PyErr → Name
| PyErr.packageException _ => ("PackageException").toList
| PyErr.typeError _ => ("TypeError").toList
| PyErr.keyError _ _ => ("KeyError").toList
| PyErr.attributeError => ("AttributeError").toList
| PyErr.assertionError => ("AssertionError").toList
| PyErr.valueError => ("ValueError").toList
| PyErr.ioError => ("OSError").toList

/-- Python `s.split(sep)` for a one-character separator: always returns
at least one (possibly empty) segment. -/
def splitOnChar (sep : Char) : Name → List Name
| [] => [[]]
| c :: r =>
  if c = sep then [] :: splitOnChar sep r
  else
    match splitOnChar sep r with
    | [] => [[c]]
    | seg :: rest => (c :: seg) :: rest

/-- Python `s.replace(old, new)` for one-character arguments. -/
def pyReplace (old new : Char) (s : Name) : Name :=
  s.map (fun c => if c = old then new else c)

/-- Python `s.lstrip('/')`. -/
def lstripSlash (s : Name) : Name := s.dropWhile (fun c => c = '/')

/-- Join path segments with `/`, as `'/'.join(...)` does. -/
def joinSlash : List Name → Name
| [] => []
| [x] => x
| x :: y :: r => x ++ '/' :: joinSlash (y :: r)

/-- The `for node in ipath: ptr = ptr.children.setdefault(node,
GroupNode(dict()))` traversal shared by `_add_to_contents` and
`save_package_tree`, followed by an action on the node the pointer ends
at.  Traversing through a node without a `children` attribute (a table
or file node) raises `AttributeError`, leaving the groups created so
far in place. -/
def updateAt : Node → List Name → (Node → Node × Option PyErr) → Node × Option PyErr
| n, [], f => f n
| Node.group ch, p :: rest, f =>
  let child := (ch.cget p).getD (Node.group Children.nil)
  let res := updateAt child rest f
  (Node.group ((ch.csetdefault p (Node.group Children.nil)).cinsert p res.1), res.2)
| n, _ :: _, _ => (n, some PyErr.attributeError)

/-- The final `ptr.children[leaf] = node` assignment: `res` is the
outcome of building the node to assign, computed before the assignment;
assigning on a non-group pointer raises `AttributeError` (after a
node-construction error, if any, has already been raised). -/
def finalAssign (leaf : Name) (res : Except PyErr Node) : Node → Node × Option PyErr
| Node.group ch =>
  match res with
  | Except.ok nd => (Node.group (ch.cinsert leaf nd), none)
  | Except.error e => (Node.group ch, some e)
| n =>
  match res with
  | Except.ok _ => (n, some PyErr.attributeError)
  | Except.error e => (n, some e)

/-- The node-construction part of `_add_to_contents`: dispatch on
`TargetType(target)`.  `TargetType` lives in `const.py`, which is not
part of this repository; its values `'group'`, `'pandas'`, `'file'` are
modelled from the call sites and the spec.  An unrecognized target
raises `PackageException("Unrecognized target {tgt}")`; a pandas target
without a format fails the `assert fmt is not None`. -/
def buildNode (hashes : Option (List Name)) (ext : Name) (path : Option Name)
    (target : Name) (fmt : Option Name) : Except PyErr Node :=
  let md : Meta := ⟨ext, path, target⟩
  if target = ("group").toList then Except.ok (Node.group Children.nil)
  else if target = ("pandas").toList then
    match fmt with
    | some f => Except.ok (Node.table (hashes.getD []) f md)
    | none => Except.error PyErr.assertionError
  else if target = ("file").toList then Except.ok (Node.file (hashes.getD []) md)
  else Except.error (PyErr.packageException (("Unrecognized target ").toList ++ target))

/-- Embedding of `Package._add_to_contents`: split the dotted name,
auto-vivify intermediate groups with `setdefault`, build the leaf node
from the target type, and assign it at the leaf name. -/
def _add_to_contents (contents : Node) (fullname : Name) (hashes : Option (List Name))
    (ext : Name) (path : Option Name) (target : Name) (fmt : Option Name) :
    Node × Option PyErr :=
  let ipath := splitOnChar '.' fullname
  let leaf := ipath.getLastD []
  updateAt contents ipath.dropLast (finalAssign leaf (buildNode hashes ext path target fmt))

/-- The package state the save operations act on: the in-memory
contents tree plus the set of object hashes present in the content
store. -/
structure SysState where
  contents : Node
  store : List Name
deriving DecidableEq, Repr

/-- Embedding of `Package.save_file`.  `digest` models `digest_file`
(the hash of the bytes at a source path); `copyOk` models whether the
filesystem copy into the store succeeds (a failed copy raises an
`OSError`).  The source digests the file, inserts the `FileNode` into
the contents, and only then — when the object is absent — copies it to
a temporary path and moves it into the store. -/
def save_file (st : SysState) (digest : Name → Name) (copyOk : Bool)
    (srcfile : Name) (name : Name) (path : Name) : SysState × Option PyErr :=
  let filehash := digest srcfile
  let fullname := pyReplace '/' '.' (lstripSlash name)
  let res := _add_to_contents st.contents fullname (some [filehash]) [] (some path)
    (("file").toList) none
  match res.2 with
  | some e => ({ st with contents := res.1 }, some e)
  | none =>
    if st.store.contains filehash then ({ st with contents := res.1 }, none)
    else if copyOk then ({ contents := res.1, store := filehash :: st.store }, none)
    else ({ st with contents := res.1 }, some PyErr.ioError)

/-- Embedding of `Package.save_group`: slash-to-dot normalization, then
`_add_to_contents` with the `'group'` target — but only when the
normalized name is non-empty (Python truthiness), otherwise nothing
happens at all. -/
def save_group (st : SysState) (name : Name) : SysState × Option PyErr :=
  let fullname := pyReplace '/' '.' (lstripSlash name)
  if fullname ≠ [] then
    let res := _add_to_contents st.contents fullname none [] none (("group").toList) none
    ({ st with contents := res.1 }, res.2)
  else (st, none)

/-- Embedding of `Package.save_package_tree`: with a non-empty name,
split on `/`, auto-vivify, and assign the subtree at the leaf; with an
empty name, replace the root's children by a copy of the subtree's
children, but only when the root has none — otherwise raise
`PackageException`. -/
def save_package_tree (t : Node) (name : Name) (pkgnode : Node) : Node × Option PyErr :=
  if name ≠ [] then
    let ipath := splitOnChar '/' name
    let leaf := ipath.getLastD []
    updateAt t ipath.dropLast (finalAssign leaf (Except.ok pkgnode))
  else
    match t with
    | Node.group ch =>
      match ch with
      | Children.nil =>
        (match pkgnode with
         | Node.group pc => (Node.group pc, none)
         | _ => (Node.group ch, some PyErr.attributeError))
      | Children.cons k v r =>
        (Node.group (Children.cons k v r),
          some (PyErr.packageException
            ("Attempting to overwrite root node of a non-empty package.").toList))
    | _ => (t, some PyErr.attributeError)

/-- Embedding of `Package.get_hash`: the hash digest of the package
contents. -/
def get_hash (st : SysState) : Name := hash_contents st.contents

/-- One save-operation of the write path, for quantifying over build
sequences. -/
inductive SaveOp where
| group (name : Name)
| file (srcfile : Name) (name : Name) (path : Name)
| packageTree (name : Name) (node : Node)
| addToContents (fullname : Name) (hashes : Option (List Name)) (ext : Name)
    (path : Option Name) (target : Name) (fmt : Option Name)
deriving Repr

/-- Apply one save-operation to the package state. -/
def applyOp (digest : Name → Name) (st : SysState) : SaveOp → SysState × Option PyErr
| SaveOp.group n => save_group st n
| SaveOp.file src n p => save_file st digest true src n p
| SaveOp.packageTree n pk =>
  let res := save_package_tree st.contents n pk
  ({ st with contents := res.1 }, res.2)
| SaveOp.addToContents fn hs e p tg fm =>
  let res := _add_to_contents st.contents fn hs e p tg fm
  ({ st with contents := res.1 }, res.2)

/-- Run a sequence of save-operations; an exception aborts the rest of
the sequence, as an uncaught Python exception would. -/
def runOps (digest : Name → Name) : SysState → List SaveOp → SysState × Option PyErr
| st, [] => (st, none)
| st, op :: rest =>
  let res := applyOp digest st op
  match res.2 with
  | none => runOps digest res.1 rest
  | some e => (res.1, some e)

/-- Modelled from the spec: `is_nodename` lives in `util.py`, which is
not part of this repository.  Per the spec (§4.3) the node-name grammar
is an implementer-defined identifier rule with no blank segments; it is
modelled as a letter or underscore followed by letters, digits or
underscores. -/
def is_nodename (n : Name) : Bool :=
  match n with
  | [] => false
  | c :: r => (c.isAlpha || c = '_') && r.all (fun c2 => c2.isAlphanum || c2 = '_')

/-- The segments of `pathlib.PurePosixPath(item).parts` for a relative
path: split on `/`, with empty segments and single-dot segments
normalized away. -/
def pathParts (item : Name) : List Name :=
  (splitOnChar '/' item).filter (fun seg => !(seg == [] || seg == ['.']))

/-- The traversal loop of `Package.__getitem__`: check each segment
with `is_nodename`, then step into `node.children[part]`.  A `KeyError`
reports the successfully traversed prefix and the failing segment; a
missing `children` attribute becomes `TypeError("Not a GroupNode: Node
at ...")` with the traversed prefix. -/
def walk : Node → List Name → List Name → Except PyErr Node
| node, [], _ => Except.ok node
| node, p :: rest, traversed =>
  if is_nodename p then
    match node with
    | Node.group ch =>
      match ch.cget p with
      | some child => walk child rest (traversed ++ [p])
      | none => Except.error (PyErr.keyError (joinSlash traversed) p)
    | _ =>
      Except.error (PyErr.typeError
        (("Not a GroupNode: Node at ").toList ++ joinSlash traversed))
  else Except.error (PyErr.typeError (("Invalid node name: ").toList ++ p))

/-- Embedding of `Package.__getitem__`: blank and absolute references
are rejected up front (their repr-quoted message details are elided),
then the path is walked segment by segment. -/
def getItem (contents : Node) (item : Name) : Except PyErr Node :=
  if item = [] then
    Except.error (PyErr.typeError
      ("Invalid node reference: Blank node names not permitted.").toList)
  else if item.head? = some '/' then
    Except.error (PyErr.typeError ("Invalid node reference: Absolute path.").toList)
  else walk contents (pathParts item) []

/-- Replace-or-append on an association list: the effect of writing a
file at a path (overwriting any previous content). -/
def alInsert {α : Type} : List (Name × α) → Name → α → List (Name × α)
| [], k, v => [(k, v)]
| (k2, v2) :: r, k, v => if k2 = k then (k2, v) :: r else (k2, v2) :: alInsert r k v

/-- Read the file at a path, if it exists. -/
def alLookup {α : Type} : List (Name × α) → Name → Option α
| [], _ => none
| (k2, v2) :: r, k => if k2 = k then some v2 else alLookup r k

theorem alLookup_alInsert {α : Type} :
    ∀ (l : List (Name × α)) (k : Name) (v : α), alLookup (alInsert l k v) k = some v
| [], k, v => by simp [alInsert, alLookup]
| (k2, v2) :: r, k, v => by
  by_cases h : k2 = k
  · simp [alInsert, alLookup, h]
  · simp [alInsert, alLookup, h, alLookup_alInsert r k v]

theorem alLookup_alInsert_ne {α : Type} :
    ∀ (l : List (Name × α)) (k k2 : Name) (v : α), k ≠ k2 →
      alLookup (alInsert l k v) k2 = alLookup l k2
| [], k, k2, v, hne => by simp [alInsert, alLookup, hne]
| (k3, v3) :: r, k, k2, v, hne => by
  by_cases h : k3 = k
  · subst h
    simp [alInsert, alLookup, hne]
  · simp [alInsert, alLookup, h, alLookup_alInsert_ne r k k2 v hne]

/-- The persistent snapshot area of one package: the `contents`
directory (snapshot documents keyed by their tree hash; the JSON text
round-trip through the file is modelled as the identity on documents)
and the `tags` directory (tag files holding a hash). -/
structure SnapState where
  contentsDir : List (Name × Json)
  tags : List (Name × Name)
deriving DecidableEq, Repr

/-- Embedding of `Package.save_contents`, indexed by how many of its
two file writes completed (`k = 0`: interrupted before any write,
`k = 1`: snapshot document written, tag write not reached, `k ≥ 2`: ran
to completion).  The source writes the serialized contents under the
tree hash first and the `latest` tag second. -/
def save_contents_upTo (ss : SnapState) (t : Node) (k : Nat) : SnapState :=
  let ih := hash_contents t
  let ss1 :=
    if 1 ≤ k then { ss with contentsDir := alInsert ss.contentsDir ih (encodeNode t) }
    else ss
  if 2 ≤ k then { ss1 with tags := alInsert ss1.tags ("latest").toList ih } else ss1

/-- Embedding of `Package.save_contents` run to completion. -/
def save_contents (ss : SnapState) (t : Node) : SnapState := save_contents_upTo ss t 2

/-- Embedding of `Package._load_contents`: resolve the hash (from the
`latest` tag when none is given), read the snapshot document stored
under it, and decode it.  A malformed document fails as the JSON
decoder would, with a `ValueError`. -/
def _load_contents (ss : SnapState) (user pkg : Name) (instance_hash : Option Name) :
    Except PyErr Node :=
  let resolved : Except PyErr Name :=
    match instance_hash with
    | some h => Except.ok h
    | none =>
      match alLookup ss.tags ("latest").toList with
      | some h => Except.ok h
      | none =>
        Except.error (PyErr.packageException
          ((("Could not find latest tag for package ").toList ++ user) ++ '/' :: pkg))
  match resolved with
  | Except.error e => Except.error e
  | Except.ok ih =>
    match alLookup ss.contentsDir ih with
    | none =>
      Except.error (PyErr.packageException
        ((((("Invalid hash for package ").toList ++ user) ++ '/' :: pkg)
          ++ (": ").toList) ++ ih))
    | some doc =>
      match decodeNode doc with
      | some t => Except.ok t
      | none => Except.error PyErr.valueError

/-- Embedding of `Package._check_hashes`: raise `PackageException`
when any hash in the list has no object in the store. -/
def _check_hashes (store : List Name) (hash_list : List Name) : Option PyErr :=
  if hash_list.all (fun h => store.contains h) then none
  else some (PyErr.packageException
    ("Missing object fragments; re-install the package").toList)

/-- What `get_obj` produces: a storage path for a file node, or the
materialization of an ordered hash list by the codec registered for a
format (the codec itself is an external collaborator, so its output is
represented by its inputs). -/
inductive ObjResult where
| filepath (p : Name)
| dataframe (hash_list : List Name) (fmt : Name)
deriving DecidableEq, Repr

/-- Embedding of `Package.file`: a file object must consist of exactly
one fragment (`assert len(hash_list) == 1`), whose storage path is
returned.  `objPath` models `store.object_path`, a pure function of
the hash. -/
def file_method (objPath : Name → Name) (hash_list : List Name) : Except PyErr ObjResult :=
  if hash_list.length = 1 then Except.ok (ObjResult.filepath (objPath (hash_list.headD [])))
  else Except.error PyErr.assertionError

/-- Embedding of `Package._dataframe`: dispatch on
`PackageFormat(pkgformat)` (values `'hdf5'` and `'parquet'`, modelled
from the spec since `core.py` is not part of this repository); HDF5
requires a single fragment; an unknown format fails `PackageFormat`
construction with a `ValueError`.  Successful materialization is
delegated to the codec and represented by its inputs. -/
def _dataframe (hash_list : List Name) (fmt : Name) : Except PyErr ObjResult :=
  if fmt = ("hdf5").toList then
    if hash_list.length = 1 then Except.ok (ObjResult.dataframe hash_list fmt)
    else Except.error PyErr.assertionError
  else if fmt = ("parquet").toList then Except.ok (ObjResult.dataframe hash_list fmt)
  else Except.error PyErr.valueError

/-- Insert into a sorted list of names. -/
def nameSortInsert (x : Name) : List Name → List Name
| [] => [x]
| y :: r => if lexLe x y then x :: y :: r else y :: nameSortInsert x r

/-- Sort a list of names. -/
def sortNames : List Name → List Name
| [] => []
| x :: r => nameSortInsert x (sortNames r)

mutual
/-- Modelled from the spec: `find_object_hashes` lives in `core.py`,
which is not part of this repository.  Per the spec (§4.5), for a group
it collects the hashes of every descendant table node. -/
def find_object_hashes : Node → List Name
| Node.group ch => findObjectHashesChildren ch
| Node.table h _ _ => h
| Node.file _ _ => []

/-- Hash collection over a children dict. -/
def findObjectHashesChildren : Children → List Name
| Children.nil => []
| Children.cons _ v r => find_object_hashes v ++ findObjectHashesChildren r
end

/-- Embedding of `Package.get_obj`: check that every referenced hash
has an object in the store, then materialize — a table through the
codec for its format, a group through the default parquet codec over
its sorted descendant hashes, a file as its storage path. -/
def get_obj (objPath : Name → Name) (store : List Name) (node : Node) :
    Except PyErr ObjResult :=
  match node with
  | Node.table hl f _ =>
    match _check_hashes store hl with
    | some e => Except.error e
    | none => _dataframe hl f
  | Node.group ch =>
    let hl := sortNames (find_object_hashes (Node.group ch))
    match _check_hashes store hl with
    | some e => Except.error e
    | none => _dataframe hl ("parquet").toList
  | Node.file hl _ =>
    match _check_hashes store hl with
    | some e => Except.error e
    | none => file_method objPath hl

/-! Concrete inputs used by the witnesses. -/

/-- A concrete stand-in for `digest_file`: the hash of a source file is
its path prefixed with `H`. -/
def digestW : Name → Name := fun s => 'H' :: s

/-- A concrete metadata value. -/
def metaW : Meta := ⟨[], none, ("file").toList⟩

/-- An empty snapshot area. -/
def ssW : SnapState := ⟨[], []⟩

/-- A fresh package state: empty root group, empty store. -/
def stW : SysState := ⟨Node.group Children.nil, []⟩

/-! Claim theorems. -/

/-- C1: for all package trees built by sequences of save-operations
(`save_group`, `save_file`, `save_package_tree`, `_add_to_contents`)
that yield structurally and data-identical contents, `get_hash` returns
the same hash: the snapshot hash does not depend on the order in which
the tree was constructed. -/
theorem hash_independent_of_build_order (digest : Name → Name) (st1 st2 : SysState)
    (ops1 ops2 : List SaveOp)
    (h : treeEquiv (runOps digest st1 ops1).1.contents (runOps digest st2 ops2).1.contents) :
    get_hash (runOps digest st1 ops1).1 = get_hash (runOps digest st2 ops2).1 := by
  unfold get_hash hash_contents
  rw [← encode_canon (runOps digest st1 ops1).1.contents, h,
    encode_canon (runOps digest st2 ops2).1.contents]

/-- Witness for C1: a group-then-file build and the file-then-group
build of the same logical content hash identically, although their
children dicts are in different insertion orders. -/
theorem hash_independent_of_build_order_witness :
    treeEquiv
      (runOps digestW stW [SaveOp.group (("a/x").toList),
        SaveOp.file (("src").toList) (("b").toList) (("p").toList)]).1.contents
      (runOps digestW stW [SaveOp.file (("src").toList) (("b").toList) (("p").toList),
        SaveOp.group (("a/x").toList)]).1.contents
    ∧ get_hash (runOps digestW stW [SaveOp.group (("a/x").toList),
        SaveOp.file (("src").toList) (("b").toList) (("p").toList)]).1
      = get_hash (runOps digestW stW [SaveOp.file (("src").toList) (("b").toList) (("p").toList),
        SaveOp.group (("a/x").toList)]).1 :=
  ⟨by decide,
    hash_independent_of_build_order digestW stW stW
      [SaveOp.group (("a/x").toList), SaveOp.file (("src").toList) (("b").toList) (("p").toList)]
      [SaveOp.file (("src").toList) (("b").toList) (("p").toList), SaveOp.group (("a/x").toList)]
      (by decide)⟩

/-- C2: persisting a package tree with `save_contents` and loading it
back through `_load_contents` at the snapshot hash `get_hash` returns
yields a tree structurally equal to the original (serialization
followed by deserialization is the identity up to structural
equality). -/
theorem persist_load_roundtrip (ss : SnapState) (st : SysState) (user pkg : Name) :
    _load_contents (save_contents ss st.contents) user pkg (some (get_hash st))
      = Except.ok (canon st.contents)
    ∧ treeEquiv (canon st.contents) st.contents := by
  constructor
  · unfold _load_contents save_contents save_contents_upTo get_hash
    simp [alLookup_alInsert, decode_encode]
  · exact canon_idem st.contents

/-- C4: `save_contents` writes the serialized tree under the tree's
content hash before writing that hash to the `latest` tag; after it
completes, the `latest` tag holds exactly the hash of the in-memory
contents and the contents area holds the serialized tree under that
hash, while an interruption before the tag write (`k ≤ 1` completed
writes) leaves the tag area exactly as it was. -/
theorem save_contents_tag_ordering (ss : SnapState) (t : Node) :
    alLookup (save_contents ss t).tags (("latest").toList) = some (hash_contents t)
    ∧ alLookup (save_contents ss t).contentsDir (hash_contents t) = some (encodeNode t)
    ∧ (∀ k : Nat, k ≤ 1 → (save_contents_upTo ss t k).tags = ss.tags) := by
  refine ⟨?_, ?_, ?_⟩
  · unfold save_contents save_contents_upTo
    simp [alLookup_alInsert]
  · unfold save_contents save_contents_upTo
    simp [alLookup_alInsert]
  · intro k hk
    have h2 : ¬ 2 ≤ k := by omega
    unfold save_contents_upTo
    by_cases h1 : 1 ≤ k <;> simp [h1, h2]

/-- Witness for C4: on a concrete store and tree, the completed run
tags `latest` with the contents hash, and the run interrupted after the
snapshot write (one completed write) leaves the tag area unchanged. -/
theorem save_contents_tag_ordering_witness :
    (1 : Nat) ≤ 1
    ∧ alLookup (save_contents ssW (Node.group Children.nil)).tags (("latest").toList)
        = some (hash_contents (Node.group Children.nil))
    ∧ (save_contents_upTo ssW (Node.group Children.nil) 1).tags = ssW.tags :=
  ⟨by decide,
    (save_contents_tag_ordering ssW (Node.group Children.nil)).1,
    (save_contents_tag_ordering ssW (Node.group Children.nil)).2.2 1 (by decide)⟩

/-- C6: grafting a subtree at the empty name via `save_package_tree`
replaces the root's children with the subtree's children when the root
has none, and otherwise raises the non-empty-root `PackageException`
and leaves the contents unchanged. -/
theorem save_package_tree_root_guard (ch pc : Children) :
    save_package_tree (Node.group Children.nil) [] (Node.group pc) = (Node.group pc, none)
    ∧ (ch ≠ Children.nil →
        save_package_tree (Node.group ch) [] (Node.group pc)
          = (Node.group ch, some (PyErr.packageException
              ("Attempting to overwrite root node of a non-empty package.").toList))) := by
  constructor
  · rfl
  · intro hne
    cases ch with
    | nil => exact absurd rfl hne
    | cons k v r => rfl

/-- Witness for C6: an empty root accepts the graft; a one-entry root
rejects it and is left unchanged. -/
theorem save_package_tree_root_guard_witness :
    save_package_tree (Node.group Children.nil) []
        (Node.group (Children.cons (("a").toList) (Node.group Children.nil) Children.nil))
      = (Node.group (Children.cons (("a").toList) (Node.group Children.nil) Children.nil), none)
    ∧ save_package_tree
        (Node.group (Children.cons (("b").toList) (Node.group Children.nil) Children.nil)) []
        (Node.group (Children.cons (("a").toList) (Node.group Children.nil) Children.nil))
      = (Node.group (Children.cons (("b").toList) (Node.group Children.nil) Children.nil),
          some (PyErr.packageException
            ("Attempting to overwrite root node of a non-empty package.").toList)) :=
  ⟨(save_package_tree_root_guard Children.nil
      (Children.cons (("a").toList) (Node.group Children.nil) Children.nil)).1,
    (save_package_tree_root_guard
      (Children.cons (("b").toList) (Node.group Children.nil) Children.nil)
      (Children.cons (("a").toList) (Node.group Children.nil) Children.nil)).2
      (by decide)⟩

/-- C10: `save_group` with a name that is empty or consists only of
slashes returns without an error and leaves the package state
completely unchanged. -/
theorem save_group_blank_noop (st : SysState) (name : Name)
    (h : ∀ c ∈ name, c = '/') : save_group st name = (st, none) := by
  have hstrip : lstripSlash name = [] := by
    unfold lstripSlash
    rw [List.dropWhile_eq_nil_iff]
    intro c hc
    simp [h c hc]
  unfold save_group
  rw [hstrip]
  simp [pyReplace]

/-- Witness for C10: a name of two slashes is silently ignored. -/
theorem save_group_blank_noop_witness :
    (∀ c ∈ (("//").toList : Name), c = '/') ∧ save_group stW (("//").toList) = (stW, none) :=
  ⟨by decide, save_group_blank_noop stW (("//").toList) (by decide)⟩

theorem walk_into (ch : Children) (p : Name) (rest : List Name) (tr : List Name)
    (child : Node) (hn : is_nodename p = true) (hc : ch.cget p = some child) :
    walk (Node.group ch) (p :: rest) tr = walk child rest (tr ++ [p]) := by
  simp [walk, hn, hc]

theorem walk_keyerror (ch : Children) (p : Name) (rest : List Name) (tr : List Name)
    (hn : is_nodename p = true) (hc : ch.cget p = none) :
    walk (Node.group ch) (p :: rest) tr
      = Except.error (PyErr.keyError (joinSlash tr) p) := by
  simp [walk, hn, hc]

theorem walk_file (hl : List Name) (m : Meta) (p : Name) (rest : List Name)
    (tr : List Name) (hn : is_nodename p = true) :
    walk (Node.file hl m) (p :: rest) tr
      = Except.error (PyErr.typeError
          (("Not a GroupNode: Node at ").toList ++ joinSlash tr)) := by
  simp [walk, hn]

/-- C3: resolving `a/b/c` through the accessor returns the node at
`a.b.c` when it exists; when `a.b` is a file node, it fails with the
not-a-traversable-node `TypeError` naming the traversed prefix `a/b`;
when group `a.b` exists but has no child `c`, it fails with the
`KeyError` carrying prefix `a/b` and failing segment `c`. -/
theorem getitem_path_resolution :
    (∀ (root ga gb : Children) (nd : Node),
      root.cget (("a").toList) = some (Node.group ga) →
      ga.cget (("b").toList) = some (Node.group gb) →
      gb.cget (("c").toList) = some nd →
      getItem (Node.group root) (("a/b/c").toList) = Except.ok nd)
    ∧ (∀ (root ga : Children) (hl : List Name) (m : Meta),
      root.cget (("a").toList) = some (Node.group ga) →
      ga.cget (("b").toList) = some (Node.file hl m) →
      getItem (Node.group root) (("a/b/c").toList)
        = Except.error (PyErr.typeError (("Not a GroupNode: Node at a/b").toList)))
    ∧ (∀ (root ga gb : Children),
      root.cget (("a").toList) = some (Node.group ga) →
      ga.cget (("b").toList) = some (Node.group gb) →
      gb.cget (("c").toList) = none →
      getItem (Node.group root) (("a/b/c").toList)
        = Except.error (PyErr.keyError (("a/b").toList) (("c").toList))) := by
  have hp : pathParts (("a/b/c").toList)
      = [("a").toList, ("b").toList, ("c").toList] := by decide
  refine ⟨?_, ?_, ?_⟩
  · intro root ga gb nd h1 h2 h3
    unfold getItem
    rw [if_neg (by decide), if_neg (by decide), hp]
    rw [walk_into root _ _ _ _ (by decide) h1,
      walk_into ga _ _ _ _ (by decide) h2,
      walk_into gb _ _ _ _ (by decide) h3]
    rfl
  · intro root ga hl m h1 h2
    unfold getItem
    rw [if_neg (by decide), if_neg (by decide), hp]
    rw [walk_into root _ _ _ _ (by decide) h1,
      walk_into ga _ _ _ _ (by decide) h2,
      walk_file hl m _ _ _ (by decide)]
    rfl
  · intro root ga gb h1 h2 h3
    unfold getItem
    rw [if_neg (by decide), if_neg (by decide), hp]
    rw [walk_into root _ _ _ _ (by decide) h1,
      walk_into ga _ _ _ _ (by decide) h2,
      walk_keyerror gb _ _ _ (by decide) h3]
    rfl

/-- Witness for C3: the three behaviors on concrete trees — a found
node, a file node blocking traversal, and a group missing the last
segment. -/
theorem getitem_path_resolution_witness :
    getItem (Node.group (Children.cons (("a").toList)
        (Node.group (Children.cons (("b").toList)
          (Node.group (Children.cons (("c").toList) (Node.file [("h1").toList] metaW)
            Children.nil)) Children.nil)) Children.nil))
      (("a/b/c").toList) = Except.ok (Node.file [("h1").toList] metaW)
    ∧ getItem (Node.group (Children.cons (("a").toList)
        (Node.group (Children.cons (("b").toList) (Node.file [("h1").toList] metaW)
          Children.nil)) Children.nil))
      (("a/b/c").toList)
        = Except.error (PyErr.typeError (("Not a GroupNode: Node at a/b").toList))
    ∧ getItem (Node.group (Children.cons (("a").toList)
        (Node.group (Children.cons (("b").toList) (Node.group Children.nil)
          Children.nil)) Children.nil))
      (("a/b/c").toList)
        = Except.error (PyErr.keyError (("a/b").toList) (("c").toList)) :=
  ⟨getitem_path_resolution.1
      (Children.cons (("a").toList)
        (Node.group (Children.cons (("b").toList)
          (Node.group (Children.cons (("c").toList) (Node.file [("h1").toList] metaW)
            Children.nil)) Children.nil)) Children.nil)
      (Children.cons (("b").toList)
        (Node.group (Children.cons (("c").toList) (Node.file [("h1").toList] metaW)
          Children.nil)) Children.nil)
      (Children.cons (("c").toList) (Node.file [("h1").toList] metaW) Children.nil)
      (Node.file [("h1").toList] metaW) (by decide) (by decide) (by decide),
    getitem_path_resolution.2.1
      (Children.cons (("a").toList)
        (Node.group (Children.cons (("b").toList) (Node.file [("h1").toList] metaW)
          Children.nil)) Children.nil)
      (Children.cons (("b").toList) (Node.file [("h1").toList] metaW) Children.nil)
      [("h1").toList] metaW (by decide) (by decide),
    getitem_path_resolution.2.2
      (Children.cons (("a").toList)
        (Node.group (Children.cons (("b").toList) (Node.group Children.nil)
          Children.nil)) Children.nil)
      (Children.cons (("b").toList) (Node.group Children.nil) Children.nil)
      Children.nil (by decide) (by decide) (by decide)⟩

/-- C5: `get_obj` on a table or file node any of whose hashes has no
object in the store fails with the missing-fragments
`PackageException` before any materialization; with every hash present,
a file node yields its object's storage path and a table node is
materialized by the codec for the node's format. -/
theorem get_obj_fragment_checks (objPath : Name → Name) (store : List Name)
    (hl : List Name) (f : Name) (m : Meta) (h0 : Name) :
    (h0 ∈ hl → h0 ∉ store →
      get_obj objPath store (Node.table hl f m)
        = Except.error (PyErr.packageException
            ("Missing object fragments; re-install the package").toList)
      ∧ get_obj objPath store (Node.file hl m)
        = Except.error (PyErr.packageException
            ("Missing object fragments; re-install the package").toList))
    ∧ ((∀ h ∈ hl, h ∈ store) →
        (f = ("parquet").toList ∨ (f = ("hdf5").toList ∧ hl.length = 1)) →
        get_obj objPath store (Node.table hl f m) = Except.ok (ObjResult.dataframe hl f))
    ∧ (h0 ∈ store →
        get_obj objPath store (Node.file [h0] m)
          = Except.ok (ObjResult.filepath (objPath h0))) := by
  refine ⟨?_, ?_, ?_⟩
  · intro hmem habs
    have hneg : ¬ (hl.all (fun h => store.contains h) = true) := by
      intro hA
      exact habs (by simpa using List.all_eq_true.mp hA h0 hmem)
    have hch : _check_hashes store hl
        = some (PyErr.packageException
            ("Missing object fragments; re-install the package").toList) := by
      unfold _check_hashes
      rw [if_neg hneg]
    constructor
    · simp only [get_obj]
      rw [hch]
    · simp only [get_obj]
      rw [hch]
  · intro hall hf
    have hallb : hl.all (fun h => store.contains h) = true := by
      rw [List.all_eq_true]
      intro x hx
      simpa using hall x hx
    have hch : _check_hashes store hl = none := by
      unfold _check_hashes
      rw [if_pos hallb]
    rcases hf with rfl | ⟨rfl, hlen⟩
    · have hdf : _dataframe hl (("parquet").toList)
          = Except.ok (ObjResult.dataframe hl (("parquet").toList)) := by
        unfold _dataframe
        rw [if_neg (show ¬((("parquet").toList : Name) = ("hdf5").toList) by decide),
          if_pos rfl]
      simp only [get_obj]
      rw [hch, hdf]
    · have hdf : _dataframe hl (("hdf5").toList)
          = Except.ok (ObjResult.dataframe hl (("hdf5").toList)) := by
        unfold _dataframe
        rw [if_pos rfl, if_pos hlen]
      simp only [get_obj]
      rw [hch, hdf]
  · intro hpres
    have hch : _check_hashes store [h0] = none := by
      unfold _check_hashes
      rw [if_pos]
      simp [hpres]
    simp only [get_obj]
    rw [hch]
    simp [file_method]

/-- Witness for C5: with hash `h1` absent from the store both node
kinds fail with missing fragments; with it present, the file node
yields its path and the table node its parquet materialization. -/
theorem get_obj_fragment_checks_witness :
    get_obj (fun h => ("objs/").toList ++ h) [] (Node.table [("h1").toList] (("parquet").toList) metaW)
      = Except.error (PyErr.packageException
          ("Missing object fragments; re-install the package").toList)
    ∧ get_obj (fun h => ("objs/").toList ++ h) [] (Node.file [("h1").toList] metaW)
      = Except.error (PyErr.packageException
          ("Missing object fragments; re-install the package").toList)
    ∧ get_obj (fun h => ("objs/").toList ++ h) [("h1").toList]
        (Node.table [("h1").toList] (("parquet").toList) metaW)
      = Except.ok (ObjResult.dataframe [("h1").toList] (("parquet").toList))
    ∧ get_obj (fun h => ("objs/").toList ++ h) [("h1").toList] (Node.file [("h1").toList] metaW)
      = Except.ok (ObjResult.filepath (("objs/h1").toList)) :=
  ⟨((get_obj_fragment_checks (fun h => ("objs/").toList ++ h) [] [("h1").toList]
      (("parquet").toList) metaW (("h1").toList)).1 (by decide) (by decide)).1,
    ((get_obj_fragment_checks (fun h => ("objs/").toList ++ h) [] [("h1").toList]
      (("parquet").toList) metaW (("h1").toList)).1 (by decide) (by decide)).2,
    (get_obj_fragment_checks (fun h => ("objs/").toList ++ h) [("h1").toList] [("h1").toList]
      (("parquet").toList) metaW (("h1").toList)).2.1 (by decide) (Or.inl rfl),
    (get_obj_fragment_checks (fun h => ("objs/").toList ++ h) [("h1").toList] [("h1").toList]
      (("parquet").toList) metaW (("h1").toList)).2.2 (by decide)⟩

/-- Counterexample to C7 as stated: a missing tag and missing object
fragments are both raised as the one class `PackageException`, so the
four named failures are not distinct error kinds distinguishable by the
caller — the class is a catch-all and only the message text differs. -/
theorem error_kinds_share_class_cex :
    _load_contents ssW (("u").toList) (("p").toList) none
      = Except.error (PyErr.packageException
          ("Could not find latest tag for package u/p").toList)
    ∧ get_obj (fun h => h) [] (Node.file [("h1").toList] metaW)
      = Except.error (PyErr.packageException
          ("Missing object fragments; re-install the package").toList)
    ∧ errClass (PyErr.packageException
          ("Could not find latest tag for package u/p").toList)
      = errClass (PyErr.packageException
          ("Missing object fragments; re-install the package").toList) := by
  refine ⟨by decide, ?_, rfl⟩
  have := ((get_obj_fragment_checks (fun h => h) [] [("h1").toList] [] metaW
    (("h1").toList)).1 (by decide) (by decide)).2
  simpa using this

/-- C7 amended: a missing tag, an unknown snapshot hash, missing object
fragments and an unrecognized target all fail with the single exception
class `PackageException`; the caller can tell them apart only by the
message strings, which are pairwise distinct. -/
theorem package_errors_single_class (u p ih h0 : Name) (hl : List Name) (m : Meta)
    (objPath : Name → Name) :
    _load_contents ssW u p none
      = Except.error (PyErr.packageException
          ((("Could not find latest tag for package ").toList ++ u) ++ '/' :: p))
    ∧ _load_contents ssW u p (some ih)
      = Except.error (PyErr.packageException
          ((((("Invalid hash for package ").toList ++ u) ++ '/' :: p)
            ++ (": ").toList) ++ ih))
    ∧ get_obj objPath [] (Node.file (h0 :: hl) m)
      = Except.error (PyErr.packageException
          ("Missing object fragments; re-install the package").toList)
    ∧ (_add_to_contents (Node.group Children.nil) (("x").toList) none [] none
        (("bogus").toList) none).2
      = some (PyErr.packageException ("Unrecognized target bogus").toList)
    ∧ (∀ msg : Name, errClass (PyErr.packageException msg) = ("PackageException").toList)
    ∧ (("Could not find latest tag for package u/p").toList
          ≠ ("Invalid hash for package u/p: h").toList
        ∧ ("Could not find latest tag for package u/p").toList
          ≠ ("Missing object fragments; re-install the package").toList
        ∧ ("Could not find latest tag for package u/p").toList
          ≠ ("Unrecognized target bogus").toList
        ∧ ("Invalid hash for package u/p: h").toList
          ≠ ("Missing object fragments; re-install the package").toList
        ∧ ("Invalid hash for package u/p: h").toList
          ≠ ("Unrecognized target bogus").toList
        ∧ ("Missing object fragments; re-install the package").toList
          ≠ ("Unrecognized target bogus").toList) := by
  refine ⟨rfl, rfl, ?_, rfl, fun _ => rfl, by decide⟩
  have := ((get_obj_fragment_checks objPath [] (h0 :: hl) [] m h0).1
    (by simp) (by simp)).2
  simpa using this

/-- Counterexample to C8 as stated: with the filesystem copy into the
store failing, `save_file` raises, yet the in-memory contents have
already changed — they contain the new `FileNode`, whose hash is absent
from the store.  The insertion is therefore not performed after the
store commit as the claim asserts. -/
theorem save_file_store_failure_cex :
    (save_file stW digestW false (("src").toList) (("x").toList) (("p").toList)).1.contents
      = Node.group (Children.cons (("x").toList)
          (Node.file [("Hsrc").toList] ⟨[], some (("p").toList), ("file").toList⟩)
          Children.nil)
    ∧ (save_file stW digestW false (("src").toList) (("x").toList)
        (("p").toList)).1.contents ≠ stW.contents
    ∧ (save_file stW digestW false (("src").toList) (("x").toList) (("p").toList)).1.store
      = []
    ∧ (save_file stW digestW false (("src").toList) (("x").toList) (("p").toList)).2
      = some PyErr.ioError := by
  refine ⟨by decide, by decide, by decide, by decide⟩

/-- C8 amended: `save_file` hashes the source and inserts the
`FileNode` into the in-memory tree first; the content-store commit
(copy to a temporary path, then atomic move, skipped when the object
already exists) happens only afterwards.  Consequently, when the store
write fails, the in-memory contents already hold the inserted
`FileNode` — referencing an object absent from the unchanged store —
while a successful write commits that same object. -/
theorem save_file_insert_then_commit (st : SysState) (digest : Name → Name)
    (src name path : Name) (c' : Node)
    (hc : _add_to_contents st.contents (pyReplace '/' '.' (lstripSlash name))
        (some [digest src]) [] (some path) (("file").toList) none = (c', none))
    (habs : st.store.contains (digest src) = false) :
    save_file st digest false src name path
      = ({ contents := c', store := st.store }, some PyErr.ioError)
    ∧ save_file st digest true src name path
      = ({ contents := c', store := digest src :: st.store }, none) := by
  constructor <;> (simp only [save_file]; rw [hc]; simp [habs]; simpa using habs)

/-- Witness for C8's amended theorem: a concrete failed and successful
store write after the same insertion. -/
theorem save_file_insert_then_commit_witness :
    _add_to_contents stW.contents
        (pyReplace '/' '.' (lstripSlash (("x").toList)))
        (some [digestW (("src").toList)]) [] (some (("p").toList)) (("file").toList) none
      = (Node.group (Children.cons (("x").toList)
          (Node.file [("Hsrc").toList] ⟨[], some (("p").toList), ("file").toList⟩)
          Children.nil), none)
    ∧ save_file stW digestW false (("src").toList) (("x").toList) (("p").toList)
      = ({ contents := Node.group (Children.cons (("x").toList)
            (Node.file [("Hsrc").toList] ⟨[], some (("p").toList), ("file").toList⟩)
            Children.nil), store := [] }, some PyErr.ioError)
    ∧ save_file stW digestW true (("src").toList) (("x").toList) (("p").toList)
      = ({ contents := Node.group (Children.cons (("x").toList)
            (Node.file [("Hsrc").toList] ⟨[], some (("p").toList), ("file").toList⟩)
            Children.nil), store := [("Hsrc").toList] }, none) :=
  ⟨by decide,
    (save_file_insert_then_commit stW digestW (("src").toList) (("x").toList)
      (("p").toList) _ (by decide) (by decide)).1,
    (save_file_insert_then_commit stW digestW (("src").toList) (("x").toList)
      (("p").toList) _ (by decide) (by decide)).2⟩

theorem lstripSlash_eq_self (l : Name) (h : ∀ c ∈ l, c ≠ '/') : lstripSlash l = l := by
  cases l with
  | nil => rfl
  | cons x xs =>
    have hx : ¬ (x = '/') := h x (List.mem_cons_self x xs)
    simp [lstripSlash, List.dropWhile_cons, hx]

theorem pyReplace_eq_self (old nw : Char) :
    ∀ l : Name, (∀ c ∈ l, c ≠ old) → pyReplace old nw l = l
| [], _ => rfl
| x :: xs, h => by
  have hx : ¬ (x = old) := h x (List.mem_cons_self x xs)
  have ih := pyReplace_eq_self old nw xs (fun c hc => h c (List.mem_cons_of_mem x hc))
  simp only [pyReplace] at ih ⊢
  simp [hx, ih]

theorem splitOnChar_no_sep (sep : Char) :
    ∀ l : Name, (∀ c ∈ l, c ≠ sep) → splitOnChar sep l = [l]
| [], _ => rfl
| x :: xs, h => by
  have hx : ¬ (x = sep) := h x (List.mem_cons_self x xs)
  have ih := splitOnChar_no_sep sep xs (fun c hc => h c (List.mem_cons_of_mem x hc))
  simp [splitOnChar, hx, ih]

theorem splitOnChar_append (sep : Char) :
    ∀ (a b : Name), (∀ c ∈ a, c ≠ sep) →
      splitOnChar sep (a ++ sep :: b) = a :: splitOnChar sep b
| [], b, _ => by simp [splitOnChar]
| x :: xs, b, h => by
  have hx : ¬ (x = sep) := h x (List.mem_cons_self x xs)
  have ih := splitOnChar_append sep xs b (fun c hc => h c (List.mem_cons_of_mem x hc))
  simp [splitOnChar, hx, ih]

/-- C9: `save_file` (and the dataframe writers, which share the same
name normalization) replaces `/` by `.` and then splits on every `.`,
so a logical name whose segment contains a literal dot — here the whole
name `a.b` with `a` and `b` dot- and slash-free — does not store the
leaf under that segment: it creates a group `a` with child `b`, and no
child exists under the literal segment name. -/
theorem save_file_dot_splits_segment (a b src path : Name) (digest : Name → Name)
    (_ha : a ≠ []) (_hb : b ≠ [])
    (hda : ∀ c ∈ a, c ≠ '.') (hdb : ∀ c ∈ b, c ≠ '.')
    (hsa : ∀ c ∈ a, c ≠ '/') (hsb : ∀ c ∈ b, c ≠ '/') :
    (save_file stW digest true src (a ++ '.' :: b) path).1.contents
      = Node.group (Children.cons a
          (Node.group (Children.cons b
            (Node.file [digest src] ⟨[], some path, ("file").toList⟩) Children.nil))
          Children.nil)
    ∧ Children.cget (Children.cons a
          (Node.group (Children.cons b
            (Node.file [digest src] ⟨[], some path, ("file").toList⟩) Children.nil))
          Children.nil) (a ++ '.' :: b) = none := by
  have hside : ∀ c ∈ (a ++ '.' :: b), c ≠ '/' := by
    intro c hc
    rcases List.mem_append.mp hc with h1 | h2
    · exact hsa c h1
    · rcases List.mem_cons.mp h2 with rfl | h3
      · decide
      · exact hsb c h3
  have hstrip : lstripSlash (a ++ '.' :: b) = a ++ '.' :: b := lstripSlash_eq_self _ hside
  have hrep : pyReplace '/' '.' (a ++ '.' :: b) = a ++ '.' :: b :=
    pyReplace_eq_self '/' '.' _ hside
  have hsplit : splitOnChar '.' (a ++ '.' :: b) = [a, b] := by
    rw [splitOnChar_append '.' a b hda, splitOnChar_no_sep '.' b hdb]
  have hbn : buildNode (some [digest src]) [] (some path) (("file").toList) none
      = Except.ok (Node.file [digest src] ⟨[], some path, ("file").toList⟩) := rfl
  have hadd : _add_to_contents (Node.group Children.nil)
      (pyReplace '/' '.' (lstripSlash (a ++ '.' :: b))) (some [digest src]) [] (some path)
      (("file").toList) none
      = (Node.group (Children.cons a
          (Node.group (Children.cons b
            (Node.file [digest src] ⟨[], some path, ("file").toList⟩) Children.nil))
          Children.nil), none) := by
    rw [hstrip, hrep]
    simp only [_add_to_contents]
    rw [hsplit]
    rw [show ([a, b] : List Name).dropLast = [a] from rfl,
      show ([a, b] : List Name).getLastD [] = b from rfl, hbn]
    simp [updateAt, Children.cget, Children.csetdefault, Children.cinsert, finalAssign]
  have hadd2 : _add_to_contents stW.contents
      (pyReplace '/' '.' (lstripSlash (a ++ '.' :: b))) (some [digest src]) [] (some path)
      (("file").toList) none
      = (Node.group (Children.cons a
          (Node.group (Children.cons b
            (Node.file [digest src] ⟨[], some path, ("file").toList⟩) Children.nil))
          Children.nil), none) := hadd
  constructor
  · simp only [save_file]
    rw [hadd2]
    simp [stW]
  · have hne : ¬ (a = a ++ '.' :: b) := by
      intro hEq
      have hlen := congrArg List.length hEq
      simp at hlen
    simp [Children.cget, hne]

/-- Witness for C9: saving under the name `data.csv` yields a group
`data` holding a file `csv`, and no child named `data.csv`. -/
theorem save_file_dot_splits_segment_witness :
    ("data").toList ++ '.' :: ("csv").toList = ("data.csv").toList
    ∧ (save_file stW digestW true (("f").toList)
        (("data").toList ++ '.' :: ("csv").toList) (("p").toList)).1.contents
      = Node.group (Children.cons (("data").toList)
          (Node.group (Children.cons (("csv").toList)
            (Node.file [("Hf").toList] ⟨[], some (("p").toList), ("file").toList⟩)
            Children.nil))
          Children.nil)
    ∧ Children.cget (Children.cons (("data").toList)
          (Node.group (Children.cons (("csv").toList)
            (Node.file [("Hf").toList] ⟨[], some (("p").toList), ("file").toList⟩)
            Children.nil))
          Children.nil) (("data").toList ++ '.' :: ("csv").toList) = none :=
  ⟨by decide,
    (save_file_dot_splits_segment (("data").toList) (("csv").toList) (("f").toList)
      (("p").toList) digestW (by decide) (by decide) (by decide) (by decide)
      (by decide) (by decide)).1,
    (save_file_dot_splits_segment (("data").toList) (("csv").toList) (("f").toList)
      (("p").toList) digestW (by decide) (by decide) (by decide) (by decide)
      (by decide) (by decide)).2⟩

end Quilt
